import Mathlib

/-!
Verification development for the gocloudtrail ingestion engine.

This file shallowly embeds the core data model and operations of the
repository: the bucketed JSONL writer (`internal/writer/writer.go`), the
per-record processing loop of the processor pool
(`internal/processor/*.go`), and the checkpointed per-(bucket, account,
region) lister (`internal/processor/discovery.go`).  File-system effects,
the flush-failure possibilities of the writer, and the ordered trace of
sink/filter actions are made explicit so that dedup, checkpointing and
partitioning properties can be stated and settled.
-/

set_option maxRecDepth 8000

namespace GoCloudTrail

/-- Association-list lookup keyed by strings; models reading from a Go map
(`m[k]` with the comma-ok idiom: a missing key yields `none`). -/
def alookup {α : Type} : List (String × α) → String → Option α
  | [], _ => none
  | p :: rest, k => if p.1 = k then some p.2 else alookup rest k

/-- Association-list update keyed by strings; models writing to a Go map
(`m[k] = v`): replaces the binding if present, otherwise appends it. -/
def aset {α : Type} : List (String × α) → String → α → List (String × α)
  | [], k, v => [(k, v)]
  | p :: rest, k, v => if p.1 = k then (k, v) :: rest else p :: aset rest k v

/-- Zero-padded decimal rendering, models `fmt.Sprintf` with a `%0wd` verb. -/
def padNum (w : Nat) (n : Nat) : String :=
  let s := toString n
  String.mk (List.replicate (w - s.length) (Char.ofNat 48)) ++ s

/-- Models `filepath.Join` for clean, non-empty path components. -/
def filepathJoin (parts : List String) : String :=
  String.intercalate ("/") parts

/-- Gregorian leap-year test, as used by Go's `time` package. -/
def isLeapYear (y : Nat) : Bool :=
  (y % 4 == 0 && y % 100 != 0) || y % 400 == 0

/-- Number of days in a month of a given year. -/
def daysInMonth (y m : Nat) : Nat :=
  if m == 2 then (if isLeapYear y then 29 else 28)
  else if m == 4 || m == 6 || m == 9 || m == 11 then 30
  else 31

/-- A Go `time.Time` as produced by `time.Parse(time.RFC3339, s)`: the wall
clock read literally from the string together with the parsed fixed-zone
offset (minutes east of UTC).  Go's `Format` renders the wall clock in the
value's own location, which for a parsed RFC-3339 value is exactly these
fields. -/
structure GoTime where
  year : Nat
  month : Nat
  day : Nat
  hour : Nat
  minute : Nat
  second : Nat
  offsetMinutes : Int
deriving DecidableEq

/-- Numeric value of a decimal digit character, `none` otherwise. -/
def digVal (c : Char) : Option Nat :=
  if c.isDigit then some (c.toNat - 48) else none

/-- Two-digit decimal field of an RFC-3339 string. -/
def num2 (a b : Char) : Option Nat := do
  let x ← digVal a
  let y ← digVal b
  pure (10 * x + y)

/-- Four-digit decimal field of an RFC-3339 string. -/
def num4 (a b c d : Char) : Option Nat := do
  let x ← digVal a
  let y ← digVal b
  let z ← digVal c
  let w ← digVal d
  pure (1000 * x + 100 * y + 10 * z + w)

/-- Skips an optional fractional-second part (a dot followed by at least one
digit), as Go's parser accepts after the seconds field. -/
def skipFrac : List Char → Option (List Char)
  | '.' :: rest =>
      if rest.takeWhile Char.isDigit = [] then none
      else some (rest.dropWhile Char.isDigit)
  | rest => some rest

/-- Parses the RFC-3339 zone suffix: `Z` or a signed `hh:mm` offset,
returning the offset in minutes east of UTC. -/
def parseOffset : List Char → Option Int
  | ['Z'] => some 0
  | '+' :: a :: b :: ':' :: c :: d :: [] => do
      let hh ← num2 a b
      let mm ← num2 c d
      if hh ≤ 23 ∧ mm ≤ 59 then pure ((hh * 60 + mm : Nat) : Int) else none
  | '-' :: a :: b :: ':' :: c :: d :: [] => do
      let hh ← num2 a b
      let mm ← num2 c d
      if hh ≤ 23 ∧ mm ≤ 59 then pure (-((hh * 60 + mm : Nat) : Int)) else none
  | _ => none

/-- Raw numeric fields of an RFC-3339 timestamp before range validation. -/
structure DateTimeFields where
  year : Nat
  month : Nat
  day : Nat
  hour : Nat
  minute : Nat
  second : Nat
  offsetMinutes : Int
deriving DecidableEq

/-- Syntactic layer of `time.Parse(time.RFC3339, ·)`: fixed-width date and
time fields separated by the literal `-`, `T`, `:` characters, an optional
fraction, then the zone. -/
def parseFieldsRFC3339 : List Char → Option DateTimeFields
  | c1 :: c2 :: c3 :: c4 :: '-' :: c5 :: c6 :: '-' :: c7 :: c8 :: 'T' ::
    c9 :: c10 :: ':' :: c11 :: c12 :: ':' :: c13 :: c14 :: rest => do
      let y ← num4 c1 c2 c3 c4
      let mo ← num2 c5 c6
      let d ← num2 c7 c8
      let h ← num2 c9 c10
      let mi ← num2 c11 c12
      let s ← num2 c13 c14
      let rest2 ← skipFrac rest
      let off ← parseOffset rest2
      pure ⟨y, mo, d, h, mi, s, off⟩
  | _ => none

/-- Range validation performed by Go's parser before a `time.Time` is
produced. -/
def validateFields (f : DateTimeFields) : Option GoTime :=
  if 1 ≤ f.month ∧ f.month ≤ 12 ∧ 1 ≤ f.day ∧ f.day ≤ daysInMonth f.year f.month ∧
     f.hour ≤ 23 ∧ f.minute ≤ 59 ∧ f.second ≤ 59 then
    some ⟨f.year, f.month, f.day, f.hour, f.minute, f.second, f.offsetMinutes⟩
  else none

/-- Models `time.Parse(time.RFC3339, s)`: `none` on any syntax or range
error, otherwise the parsed wall clock and zone offset. -/
def parseRFC3339 (s : String) : Option GoTime :=
  match parseFieldsRFC3339 s.data with
  | none => none
  | some f => validateFields f

/-- Models `t.Format("2006/01/02/15")`: Go renders the wall clock of `t` in
its own location (it does NOT convert to UTC). -/
def goFormatYMDH (t : GoTime) : String :=
  padNum 4 t.year ++ ("/") ++ padNum 2 t.month ++ ("/") ++ padNum 2 t.day ++ ("/") ++ padNum 2 t.hour

/-- Calendar successor of a civil date. -/
def nextDay (y m d : Nat) : Nat × Nat × Nat :=
  if d < daysInMonth y m then (y, m, d + 1)
  else if m < 12 then (y, m + 1, 1)
  else (y + 1, 1, 1)

/-- Calendar predecessor of a civil date. -/
def prevDay (y m d : Nat) : Nat × Nat × Nat :=
  if 1 < d then (y, m, d - 1)
  else if 1 < m then (y, m - 1, daysInMonth y (m - 1))
  else (y - 1, 12, 31)

/-- The UTC calendar hour `(year, month, day, hour)` denoted by a parsed
RFC-3339 value: the wall clock shifted back by the zone offset (the offset
magnitude is below one day, so at most one day of carry is needed). -/
def utcCalendarHour (t : GoTime) : Nat × Nat × Nat × Nat :=
  let tot : Int := ((t.hour * 60 + t.minute : Nat) : Int) - t.offsetMinutes
  if tot < 0 then
    let p := prevDay t.year t.month t.day
    (p.1, p.2.1, p.2.2, (tot + 1440).toNat / 60)
  else if 1440 ≤ tot then
    let p := nextDay t.year t.month t.day
    (p.1, p.2.1, p.2.2, (tot.toNat - 1440) / 60)
  else (t.year, t.month, t.day, tot.toNat / 60)

/-- Renders a `(year, month, day, hour)` quadruple with the same padding as
the `2006/01/02/15` layout. -/
def fmtYMDH (q : Nat × Nat × Nat × Nat) : String :=
  padNum 4 q.1 ++ ("/") ++ padNum 2 q.2.1 ++ ("/") ++ padNum 2 q.2.2.1 ++ ("/") ++ padNum 2 q.2.2.2

/-- The JSON fields of one CloudTrail record that `MinimalEvent` extracts;
`none` models an absent field. -/
structure EventFields where
  eventTime : Option String
  eventID : Option String
  awsRegion : Option String
  userIdentityAccountID : Option String
  recipientAccountID : Option String
deriving DecidableEq

/-- One raw record (`json.RawMessage`) of a CloudTrail log file, kept
opaque except for the routing fields `json.Unmarshal` would extract;
`malformed` stands for bytes on which unmarshalling errors. -/
inductive RawRecord where
  | malformed
  | obj (fields : EventFields)
deriving DecidableEq

/-- `MinimalEvent` of `internal/processor/types.go`. -/
structure MinimalEvent where
  eventTime : String
  eventID : String
  awsRegion : String
  userIdentityAccountID : String
  recipientAccountID : String
deriving DecidableEq

/-- Models `json.Unmarshal(rawEvent, &minimal)` for `MinimalEvent`: absent
fields are left at their zero value `""`; malformed input errors. -/
def jsonUnmarshalMinimal : RawRecord → Option MinimalEvent
  | .malformed => none
  | .obj f =>
      some ⟨f.eventTime.getD (""), f.eventID.getD (""), f.awsRegion.getD (""),
        f.userIdentityAccountID.getD (""), f.recipientAccountID.getD ("")⟩

/-- The dedup key a record carries, for phrasing trace properties. -/
def recEventID (r : RawRecord) : String :=
  match jsonUnmarshalMinimal r with
  | some m => m.eventID
  | none => ""

/-- Observable actions of a processing run, in program order: a complete
JSONL file written by a flush, the return of the sink `Write` call for a
record (with its success flag), and a bloom-filter `Add` call. -/
inductive Act where
  | fileFlush (path : String) (lines : List RawRecord)
  | sinkWriteReturn (eventID : String) (ok : Bool)
  | addCall (eventID : String)
deriving DecidableEq

/-- External world of the writer: the local filesystem (path to the lines
of a complete file; `os.Create` truncates, so writing an existing path
replaces it), a schedule of flush-attempt failures (the head is consumed
per attempted file creation; an exhausted schedule means success), and the
ordered action trace. -/
structure World where
  fs : List (String × List RawRecord)
  failures : List Bool
  log : List Act
deriving DecidableEq

/-- `JSONLWriter` of `internal/writer/writer.go` (the buffer map holds the
buffered records directly). -/
structure JSONLWriter where
  buffers : List (String × List RawRecord)
  eventsDir : String
  eventsPerFile : Nat
  nextFileCounter : List (String × Nat)
deriving DecidableEq

/-- `writer.New`. -/
def JSONLWriter.New (eventsDir : String) (eventsPerFile : Nat) : JSONLWriter :=
  ⟨[], eventsDir, eventsPerFile, []⟩

/-- The partition key `fmt.Sprintf("%s/%s/%s", accountID, region,
eventTime.Format("2006/01/02/15"))` computed by `JSONLWriter.Write`. -/
def partKey (accountID region : String) (eventTime : GoTime) : String :=
  accountID ++ ("/") ++ region ++ ("/") ++ goFormatYMDH eventTime

/-- `flushBufferLocked`: an empty buffer is a no-op; otherwise the file
counter for the key is read and incremented, and the file
`{eventsDir}/{key}/events_{NNNNN}.jsonl` is created with the buffered
records one per line.  On an I/O failure the counter increment remains but
no file is produced and the buffer is NOT truncated; on success the buffer
is truncated to empty.  Returns the success flag. -/
def JSONLWriter.flushBufferLocked (w : JSONLWriter) (world : World) (key : String)
    (events : List RawRecord) : JSONLWriter × World × Bool :=
  if events = [] then (w, world, true)
  else
    let counter := (alookup w.nextFileCounter key).getD 0
    let w2 := { w with nextFileCounter := aset w.nextFileCounter key (counter + 1) }
    let filePath := filepathJoin [w.eventsDir, key, ("events_") ++ padNum 5 counter ++ (".jsonl")]
    match world.failures with
    | true :: restSched => (w2, { world with failures := restSched }, false)
    | false :: restSched =>
        (({ w2 with buffers := aset w2.buffers key [] }),
         { world with
            failures := restSched
            fs := aset world.fs filePath events
            log := world.log ++ [Act.fileFlush filePath events] },
         true)
    | [] =>
        (({ w2 with buffers := aset w2.buffers key [] }),
         { world with
            fs := aset world.fs filePath events
            log := world.log ++ [Act.fileFlush filePath events] },
         true)

/-- `JSONLWriter.Write`: appends the record to the buffer of its partition
key (creating the buffer if needed) and flushes inline when the buffer
length reaches `eventsPerFile`. -/
def JSONLWriter.Write (w : JSONLWriter) (world : World) (accountID region : String)
    (eventTime : GoTime) (rawEvent : RawRecord) : JSONLWriter × World × Bool :=
  let key := partKey accountID region eventTime
  let buf := ((alookup w.buffers key).getD []) ++ [rawEvent]
  let w2 := { w with buffers := aset w.buffers key buf }
  if w2.eventsPerFile ≤ buf.length then
    w2.flushBufferLocked world key buf
  else (w2, world, true)

/-- Iteration of `FlushAll` over the buffer keys; each flush reads the
current buffer contents and per-buffer errors are logged and ignored. -/
def flushAllGo : List String → JSONLWriter → World → JSONLWriter × World
  | [], w, world => (w, world)
  | k :: ks, w, world =>
      let r := w.flushBufferLocked world k ((alookup w.buffers k).getD [])
      flushAllGo ks r.1 r.2.1

/-- `JSONLWriter.FlushAll`: flushes every buffer. -/
def JSONLWriter.FlushAll (w : JSONLWriter) (world : World) : JSONLWriter × World :=
  flushAllGo (w.buffers.map Prod.fst) w world

/-- The atomic counters of `Stats` touched by the pipeline. -/
structure Stats where
  filesListed : Nat
  filesDownloaded : Nat
  filesProcessed : Nat
  eventsProcessed : Nat
  eventsWritten : Nat
  eventsDuplicate : Nat
  bytesDownloaded : Nat
  errors : Nat
deriving DecidableEq

/-- All-zero counters at run start. -/
def zeroStats : Stats := ⟨0, 0, 0, 0, 0, 0, 0, 0⟩

/-- State visible to one processor worker: the set of event IDs added to
the bloom filter so far, the counters, the JSONL writer, and the world. -/
structure PState where
  filter : List String
  stats : Stats
  writer : JSONLWriter
  world : World
deriving DecidableEq

/-- Per-record body of `processWorker` (`internal/config/config.go`): count
the record, unmarshal the minimal fields (silently skipping failures),
skip duplicates per the bloom test, parse the event time, resolve the
account ID (recipient first, then user identity), write to the sink, and
on success add the event ID to the filter and count the write.  The bloom
test is a parameter so that false positives remain possible; an ID added
is always an ID `Add` was called on. -/
def processRecord (test : List String → String → Bool) (st : PState)
    (rawEvent : RawRecord) : PState :=
  let st1 := { st with stats := { st.stats with eventsProcessed := st.stats.eventsProcessed + 1 } }
  match jsonUnmarshalMinimal rawEvent with
  | none => st1
  | some minimal =>
    if test st1.filter minimal.eventID then
      { st1 with stats := { st1.stats with eventsDuplicate := st1.stats.eventsDuplicate + 1 } }
    else
      match parseRFC3339 minimal.eventTime with
      | none => st1
      | some eventTime =>
        let accountID :=
          if minimal.recipientAccountID = ("") then minimal.userIdentityAccountID
          else minimal.recipientAccountID
        if accountID = ("") then st1
        else
          let r := st1.writer.Write st1.world accountID minimal.awsRegion eventTime rawEvent
          let world2 := { r.2.1 with log := r.2.1.log ++ [Act.sinkWriteReturn minimal.eventID r.2.2] }
          if r.2.2 then
            { st1 with
                filter := minimal.eventID :: st1.filter
                stats := { st1.stats with eventsWritten := st1.stats.eventsWritten + 1 }
                writer := r.1
                world := { world2 with log := world2.log ++ [Act.addCall minimal.eventID] } }
          else { st1 with writer := r.1, world := world2 }

/-- Sequential processing of a list of records by one worker. -/
def processRecords (test : List String → String → Bool) (st : PState)
    (records : List RawRecord) : PState :=
  records.foldl (processRecord test) st

/-- `ProcessedFile` handed from a downloader to a processor. -/
structure ProcessedFile where
  records : List RawRecord
  err : Bool
deriving DecidableEq

/-- Per-file body of `processWorker`: files carrying an error are skipped
entirely; otherwise every record is processed and `files_processed` is
incremented. -/
def processFile (test : List String → String → Bool) (st : PState)
    (file : ProcessedFile) : PState :=
  if file.err then st
  else
    let st2 := processRecords test st file.records
    { st2 with stats := { st2.stats with filesProcessed := st2.stats.filesProcessed + 1 } }

/-- A fresh run state: loaded filter contents, a fresh writer, an empty
log, and a given filesystem and failure schedule. -/
def mkPState (filter0 : List String) (eventsDir : String) (eventsPerFile : Nat)
    (fs0 : List (String × List RawRecord)) (failures : List Bool) : PState :=
  ⟨filter0, zeroStats, JSONLWriter.New eventsDir eventsPerFile, ⟨fs0, failures, []⟩⟩

/-- One run of the processing stage: all files flow through a worker in
sequence, then the shutdown path flushes every JSONL buffer. -/
def runPipeline (test : List String → String → Bool) (st : PState)
    (files : List ProcessedFile) : PState :=
  let st2 := files.foldl (processFile test) st
  let r := st2.writer.FlushAll st2.world
  { st2 with writer := r.1, world := r.2 }

/-- An S3 object summary as returned by a `ListObjectsV2` page. -/
structure S3Object where
  key : String
  size : Int
  lastModified : Int
deriving DecidableEq

/-- `DownloadJob` of `internal/processor/types.go`. -/
structure DownloadJob where
  bucket : String
  key : String
  size : Int
  lastModified : Int
deriving DecidableEq

/-- Accumulated effects of one lister (`processAccountRegion`): the
`files_listed` count, the running `lastSeenKey`, the download jobs pushed
to the queue in order, and the keys passed to the state store upsert in
order. -/
structure ListerAcc where
  filesListed : Nat
  lastSeenKey : String
  jobs : List DownloadJob
  upserts : List String
deriving DecidableEq

/-- Models Go's `strings.HasSuffix` on the character sequences. -/
def stringHasSuffix (s suffix : String) : Bool :=
  suffix.data.isSuffixOf s.data

/-- Body of the object loop of `processAccountRegion`: keys not ending in
`.json.gz` are skipped; otherwise the file is counted, remembered as last
seen, enqueued as a `DownloadJob`, and every 100th enqueued file the
current key is checkpointed to the state store. -/
def listerStep (bucket : String) (acc : ListerAcc) (obj : S3Object) : ListerAcc :=
  if stringHasSuffix obj.key (".json.gz") then
    let n := acc.filesListed + 1
    { filesListed := n
      lastSeenKey := obj.key
      jobs := acc.jobs ++ [⟨bucket, obj.key, obj.size, obj.lastModified⟩]
      upserts := if n % 100 = 0 then acc.upserts ++ [obj.key] else acc.upserts }
  else acc

/-- The `StartAfter` field `processAccountRegion` puts into its
`ListObjectsV2` input: set only when the persisted last key is non-empty. -/
def startAfterOf (lastKey : String) : Option String :=
  if lastKey = ("") then none else some lastKey

/-- `processAccountRegion` of `internal/processor/discovery.go`, given the
persisted `lastKey` for the triple and the pages the paginator returns (in
order).  `pageError` true models `NextPage` failing after the given pages:
the lister then returns without the final checkpoint.  When pagination
completes and at least one file was enqueued, a final upsert with the last
seen key is performed. -/
def processAccountRegion (bucket lastKey : String) (pages : List (List S3Object))
    (pageError : Bool) : ListerAcc :=
  let acc := pages.foldl (fun a page => page.foldl (listerStep bucket) a) ⟨0, "", [], []⟩
  if pageError then acc
  else if 0 < acc.filesListed then { acc with upserts := acc.upserts ++ [acc.lastSeenKey] }
  else acc

/-- One row of the `state` table. -/
structure StateRow where
  lastProcessedKey : String
  processedCount : Nat
deriving DecidableEq

/-- `DB.UpdateLastProcessedKey`: the SQL upsert inserts a fresh row with
count 1 or updates the key and increments the count. -/
def UpdateLastProcessedKey (db : List ((String × String × String) × StateRow))
    (bucket accountID region key : String) : List ((String × String × String) × StateRow) :=
  if db.any (fun p => p.1 == (bucket, accountID, region)) then
    db.map (fun p =>
      if p.1 == (bucket, accountID, region) then
        (p.1, ⟨key, p.2.processedCount + 1⟩)
      else p)
  else db ++ [((bucket, accountID, region), ⟨key, 1⟩)]

/-- The cumulative effect on the state database of a sequence of upserted
keys for one triple. -/
def applyUpserts (db : List ((String × String × String) × StateRow))
    (bucket accountID region : String) (keys : List String) :
    List ((String × String × String) × StateRow) :=
  keys.foldl (fun d k => UpdateLastProcessedKey d bucket accountID region k) db

/-- Claim C5 as stated: every event that ends up in a flushed JSONL file
had `add(event_id)` called at or before the moment the sink write call for
it returned. -/
def bloomBeforeWriteClaim (tr : List Act) : Prop :=
  ∀ i path lines, tr.get? i = some (Act.fileFlush path lines) →
    ∀ r ∈ lines, ∀ j ok, tr.get? j = some (Act.sinkWriteReturn (recEventID r) ok) →
      ∃ k, k ≤ j ∧ tr.get? k = some (Act.addCall (recEventID r))

/-- The ordering the code actually maintains: in the action trace, every
successful sink-write return is immediately followed by the bloom `Add`
call for the same event ID (and the trace never ends on a dangling
successful write). -/
def GoodLog : List Act → Prop
  | [] => True
  | [x] => ∀ id2, x ≠ Act.sinkWriteReturn id2 true
  | x :: y :: rest =>
      (∀ id2, x = Act.sinkWriteReturn id2 true → y = Act.addCall id2) ∧ GoodLog (y :: rest)

/-- An exact-membership bloom test: no false negatives and, here, no false
positives either; used to instantiate theorems on concrete runs. -/
def testContains (f : List String) (x : String) : Bool := decide (x ∈ f)

/-- A concrete wall-clock value, `2024-03-15T12:34:56Z` parsed. -/
def t0 : GoTime := ⟨2024, 3, 15, 12, 34, 56, 0⟩

/-- The partition key of `t0` under the scenario account and region. -/
def key0 : String := "123456789012/us-east-1/2024/03/15/12"

/-- Output path of the `i`-th file of the scenario partition. -/
def fpath (i : Nat) : String :=
  filepathJoin [("events"), key0, ("events_") ++ padNum 5 i ++ (".jsonl")]

/-- A concrete well-formed record with event ID `A`. -/
def recA : RawRecord :=
  .obj ⟨some ("2024-03-15T12:34:56Z"), some ("A"), some ("us-east-1"), none, some ("123456789012")⟩

/-- A concrete well-formed record with the same event ID `A` but different
content. -/
def recA2 : RawRecord :=
  .obj ⟨some ("2024-03-15T13:22:33Z"), some ("A"), some ("us-east-1"), none, some ("123456789012")⟩

/-- A concrete well-formed record with event ID `D`. -/
def recD : RawRecord :=
  .obj ⟨some ("2024-03-15T12:40:00Z"), some ("D"), some ("us-east-1"), none, some ("123456789012")⟩

/-- A concrete record whose `eventID` field is absent. -/
def recNoID : RawRecord :=
  .obj ⟨some ("2024-03-15T12:34:56Z"), none, some ("us-east-1"), none, some ("123456789012")⟩

/-- A concrete record whose `eventID` field is present but empty. -/
def recEmptyID : RawRecord :=
  .obj ⟨some ("2024-03-15T14:00:00Z"), some (""), some ("us-east-1"), none, some ("123456789012")⟩

/-- Filesystem after a first run writes `recA` into the scenario partition
and performs its final flush. -/
def run1fs : List (String × List RawRecord) :=
  let r1 := (JSONLWriter.New ("events") 10000).Write ⟨[], [], []⟩ ("123456789012") ("us-east-1") t0 recA
  (r1.1.FlushAll r1.2.1).2.fs

/-- Filesystem after a second run — a fresh writer whose per-partition file
counters restart at 0, over the filesystem left by the first run — writes
`recD` into the same partition and performs its final flush. -/
def run2fs : List (String × List RawRecord) :=
  let r2 := (JSONLWriter.New ("events") 10000).Write ⟨run1fs, [], []⟩ ("123456789012") ("us-east-1") t0 recD
  (r2.1.FlushAll r2.2.1).2.fs

/-- Repeated single-partition writes, for the flush-threshold scenario. -/
def writeMany (w : JSONLWriter) (world : World) (accountID region : String)
    (eventTime : GoTime) (records : List RawRecord) : JSONLWriter × World :=
  records.foldl
    (fun p r =>
      let q := p.1.Write p.2 accountID region eventTime r
      (q.1, q.2.1))
    (w, world)

theorem alookup_aset_self {α : Type} (l : List (String × α)) (k : String) (v : α) :
    alookup (aset l k v) k = some v := by
  induction l with
  | nil => simp [aset, alookup]
  | cons p rest ih =>
      by_cases h : p.1 = k
      · simp [aset, alookup, h]
      · simp [aset, alookup, h, ih]

theorem alookup_aset_ne {α : Type} (l : List (String × α)) (k k2 : String) (v : α)
    (h : k2 ≠ k) : alookup (aset l k v) k2 = alookup l k2 := by
  have hkne : ¬k = k2 := fun hc => h hc.symm
  induction l with
  | nil => simp [aset, alookup, hkne]
  | cons p rest ih =>
      by_cases hp : p.1 = k
      · subst hp
        have hne2 : ¬p.1 = k2 := fun hc => h hc.symm
        simp [aset, alookup, hkne, hne2]
      · by_cases hp2 : p.1 = k2
        · simp [aset, alookup, hp, hp2, hkne, h]
        · simp [aset, alookup, hp, hp2, ih]

theorem processRecord_written_filter (test : List String → String → Bool) (st : PState)
    (r : RawRecord) (m : MinimalEvent) (hp : jsonUnmarshalMinimal r = some m)
    (hw : (processRecord test st r).stats.eventsWritten = st.stats.eventsWritten + 1) :
    (processRecord test st r).filter = m.eventID :: st.filter := by
  simp only [processRecord, hp] at hw ⊢
  by_cases hdup : test st.filter m.eventID
  · simp only [hdup, if_true] at hw
    omega
  · simp only [hdup, if_false, Bool.false_eq_true] at hw ⊢
    cases hT : parseRFC3339 m.eventTime with
    | none => simp only [hT] at hw; omega
    | some t =>
        simp only [hT] at hw ⊢
        by_cases hacc : (if m.recipientAccountID = ("") then m.userIdentityAccountID
            else m.recipientAccountID) = ("")
        · simp only [hacc, if_true] at hw; omega
        · simp only [hacc, if_false] at hw ⊢
          cases hok : (({ st with stats := { st.stats with eventsProcessed := st.stats.eventsProcessed + 1 } } : PState).writer.Write
              ({ st with stats := { st.stats with eventsProcessed := st.stats.eventsProcessed + 1 } } : PState).world
              (if m.recipientAccountID = ("") then m.userIdentityAccountID else m.recipientAccountID)
              m.awsRegion t r).2.2 with
          | false => simp only [hok, if_false, Bool.false_eq_true] at hw; omega
          | true => simp only [hok, if_true]

theorem processRecord_filter_mono (test : List String → String → Bool) (st : PState)
    (r : RawRecord) (x : String) (hx : x ∈ st.filter) :
    x ∈ (processRecord test st r).filter := by
  simp only [processRecord]
  cases hp : jsonUnmarshalMinimal r with
  | none => exact hx
  | some m =>
      by_cases hdup : test st.filter m.eventID
      · simp only [hdup, if_true]; exact hx
      · simp only [hdup, if_false, Bool.false_eq_true]
        cases hT : parseRFC3339 m.eventTime with
        | none => exact hx
        | some t =>
            by_cases hacc : (if m.recipientAccountID = ("") then m.userIdentityAccountID
                else m.recipientAccountID) = ("")
            · simp only [hacc, if_true]; exact hx
            · simp only [hacc, if_false]
              cases hok : (({ st with stats := { st.stats with eventsProcessed := st.stats.eventsProcessed + 1 } } : PState).writer.Write
                  ({ st with stats := { st.stats with eventsProcessed := st.stats.eventsProcessed + 1 } } : PState).world
                  (if m.recipientAccountID = ("") then m.userIdentityAccountID else m.recipientAccountID)
                  m.awsRegion t r).2.2 with
              | false => simp only [hok, if_false, Bool.false_eq_true]; exact hx
              | true => simp only [hok, if_true]; exact List.mem_cons_of_mem _ hx

theorem processRecords_filter_mono (test : List String → String → Bool) (st : PState)
    (records : List RawRecord) (x : String) (hx : x ∈ st.filter) :
    x ∈ (processRecords test st records).filter := by
  induction records generalizing st with
  | nil => exact hx
  | cons r rest ih =>
      exact ih (processRecord test st r) (processRecord_filter_mono test st r x hx)

theorem processRecord_dup (test : List String → String → Bool) (st : PState)
    (r : RawRecord) (m : MinimalEvent) (hp : jsonUnmarshalMinimal r = some m)
    (hdup : test st.filter m.eventID = true) :
    processRecord test st r =
      { st with stats := { st.stats with
          eventsProcessed := st.stats.eventsProcessed + 1
          eventsDuplicate := st.stats.eventsDuplicate + 1 } } := by
  simp only [processRecord, hp, hdup, if_true]

/-- C1: two records processed in sequence by a worker share an event ID;
if the first was written (its sink write succeeded and `Add` was called,
witnessed by `events_written` incrementing), then — under the hypothesis
that the bloom test never yields false negatives — processing the second
increments `events_duplicate`, does not increment `events_written`, and
does not touch the sink (writer state, files and trace unchanged). -/
theorem dedup_soundness
    (test : List String → String → Bool)
    (hnf : ∀ (f : List String) (x : String), x ∈ f → test f x = true)
    (st : PState) (r1 r2 : RawRecord) (mid : List RawRecord) (m1 m2 : MinimalEvent)
    (hp1 : jsonUnmarshalMinimal r1 = some m1)
    (hp2 : jsonUnmarshalMinimal r2 = some m2)
    (hid : m2.eventID = m1.eventID)
    (hw : (processRecord test st r1).stats.eventsWritten = st.stats.eventsWritten + 1) :
    (processRecord test (processRecords test (processRecord test st r1) mid) r2).stats.eventsDuplicate
      = (processRecords test (processRecord test st r1) mid).stats.eventsDuplicate + 1 ∧
    (processRecord test (processRecords test (processRecord test st r1) mid) r2).stats.eventsWritten
      = (processRecords test (processRecord test st r1) mid).stats.eventsWritten ∧
    (processRecord test (processRecords test (processRecord test st r1) mid) r2).writer
      = (processRecords test (processRecord test st r1) mid).writer ∧
    (processRecord test (processRecords test (processRecord test st r1) mid) r2).world
      = (processRecords test (processRecord test st r1) mid).world := by
  have hmem1 : m1.eventID ∈ (processRecord test st r1).filter := by
    rw [processRecord_written_filter test st r1 m1 hp1 hw]
    exact List.mem_cons_self _ _
  have hmem2 : m1.eventID ∈ (processRecords test (processRecord test st r1) mid).filter :=
    processRecords_filter_mono test (processRecord test st r1) mid m1.eventID hmem1
  have htest : test (processRecords test (processRecord test st r1) mid).filter m2.eventID = true := by
    rw [hid]; exact hnf _ _ hmem2
  rw [processRecord_dup test (processRecords test (processRecord test st r1) mid) r2 m2 hp2 htest]
  exact ⟨rfl, rfl, rfl, rfl⟩

/-- Witness for C1 at a concrete input: `recA` is written from a fresh
state and the later `recA2` (same event ID, different content) is counted
as a duplicate and not written. -/
theorem dedup_soundness_witness :
    (processRecord testContains (processRecords testContains (processRecord testContains (mkPState [] ("events") 10000 [] []) recA) []) recA2).stats.eventsDuplicate
      = (processRecords testContains (processRecord testContains (mkPState [] ("events") 10000 [] []) recA) []).stats.eventsDuplicate + 1 ∧
    (processRecord testContains (processRecords testContains (processRecord testContains (mkPState [] ("events") 10000 [] []) recA) []) recA2).stats.eventsWritten
      = (processRecords testContains (processRecord testContains (mkPState [] ("events") 10000 [] []) recA) []).stats.eventsWritten ∧
    (processRecord testContains (processRecords testContains (processRecord testContains (mkPState [] ("events") 10000 [] []) recA) []) recA2).writer
      = (processRecords testContains (processRecord testContains (mkPState [] ("events") 10000 [] []) recA) []).writer ∧
    (processRecord testContains (processRecords testContains (processRecord testContains (mkPState [] ("events") 10000 [] []) recA) []) recA2).world
      = (processRecords testContains (processRecord testContains (mkPState [] ("events") 10000 [] []) recA) []).world :=
  dedup_soundness testContains (fun _ _ hx => decide_eq_true hx)
    (mkPState [] ("events") 10000 [] []) recA recA2 []
    ⟨"2024-03-15T12:34:56Z", "A", "us-east-1", "", "123456789012"⟩
    ⟨"2024-03-15T13:22:33Z", "A", "us-east-1", "", "123456789012"⟩
    (by decide) (by decide) (by decide) (by decide)

/-- C10: a record whose `eventID` field is absent or empty still parses
into a `MinimalEvent`, with `""` as its dedup key; and once one such
record has been written (so `""` was added to the filter), any later
record with an absent or empty `eventID` is counted in `events_duplicate`
and not written, regardless of its other content — under the hypothesis
that the bloom test never yields false negatives. -/
theorem empty_event_id_not_rejected
    (test : List String → String → Bool)
    (hnf : ∀ (f : List String) (x : String), x ∈ f → test f x = true)
    (st : PState) (r1 : RawRecord) (mid : List RawRecord) (m1 : MinimalEvent)
    (fields : EventFields)
    (hp1 : jsonUnmarshalMinimal r1 = some m1)
    (hid1 : m1.eventID = (""))
    (hw : (processRecord test st r1).stats.eventsWritten = st.stats.eventsWritten + 1)
    (hempty : fields.eventID = none ∨ fields.eventID = some ("")) :
    (∃ m, jsonUnmarshalMinimal (RawRecord.obj fields) = some m ∧ m.eventID = ("")) ∧
    (processRecord test (processRecords test (processRecord test st r1) mid) (RawRecord.obj fields)).stats.eventsDuplicate
      = (processRecords test (processRecord test st r1) mid).stats.eventsDuplicate + 1 ∧
    (processRecord test (processRecords test (processRecord test st r1) mid) (RawRecord.obj fields)).stats.eventsWritten
      = (processRecords test (processRecord test st r1) mid).stats.eventsWritten ∧
    (processRecord test (processRecords test (processRecord test st r1) mid) (RawRecord.obj fields)).writer
      = (processRecords test (processRecord test st r1) mid).writer := by
  have hgetD : fields.eventID.getD ("") = ("") := by
    rcases hempty with h | h <;> simp [h]
  have hparse : jsonUnmarshalMinimal (RawRecord.obj fields) =
      some ⟨fields.eventTime.getD (""), "", fields.awsRegion.getD (""),
        fields.userIdentityAccountID.getD (""), fields.recipientAccountID.getD ("")⟩ := by
    simp [jsonUnmarshalMinimal, hgetD]
  have hmem1 : m1.eventID ∈ (processRecord test st r1).filter := by
    rw [processRecord_written_filter test st r1 m1 hp1 hw]
    exact List.mem_cons_self _ _
  have hmem2 : ("" : String) ∈ (processRecords test (processRecord test st r1) mid).filter := by
    have := processRecords_filter_mono test (processRecord test st r1) mid m1.eventID hmem1
    rwa [hid1] at this
  have htest : test (processRecords test (processRecord test st r1) mid).filter ("") = true :=
    hnf _ _ hmem2
  rw [processRecord_dup test (processRecords test (processRecord test st r1) mid)
    (RawRecord.obj fields)
    ⟨fields.eventTime.getD (""), "", fields.awsRegion.getD (""),
      fields.userIdentityAccountID.getD (""), fields.recipientAccountID.getD ("")⟩ hparse htest]
  exact ⟨⟨_, hparse, rfl⟩, rfl, rfl, rfl⟩

/-- Witness for C10 at a concrete input: an empty-`eventID` record is
written from a fresh state, after which a record with an absent `eventID`
is counted as a duplicate and not written. -/
theorem empty_event_id_not_rejected_witness :
    (∃ m, jsonUnmarshalMinimal (RawRecord.obj ⟨some ("2024-03-15T12:34:56Z"), none, some ("us-east-1"), none, some ("123456789012")⟩) = some m ∧ m.eventID = ("")) ∧
    (processRecord testContains (processRecords testContains (processRecord testContains (mkPState [] ("events") 10000 [] []) recEmptyID) []) (RawRecord.obj ⟨some ("2024-03-15T12:34:56Z"), none, some ("us-east-1"), none, some ("123456789012")⟩)).stats.eventsDuplicate
      = (processRecords testContains (processRecord testContains (mkPState [] ("events") 10000 [] []) recEmptyID) []).stats.eventsDuplicate + 1 ∧
    (processRecord testContains (processRecords testContains (processRecord testContains (mkPState [] ("events") 10000 [] []) recEmptyID) []) (RawRecord.obj ⟨some ("2024-03-15T12:34:56Z"), none, some ("us-east-1"), none, some ("123456789012")⟩)).stats.eventsWritten
      = (processRecords testContains (processRecord testContains (mkPState [] ("events") 10000 [] []) recEmptyID) []).stats.eventsWritten ∧
    (processRecord testContains (processRecords testContains (processRecord testContains (mkPState [] ("events") 10000 [] []) recEmptyID) []) (RawRecord.obj ⟨some ("2024-03-15T12:34:56Z"), none, some ("us-east-1"), none, some ("123456789012")⟩)).writer
      = (processRecords testContains (processRecord testContains (mkPState [] ("events") 10000 [] []) recEmptyID) []).writer :=
  empty_event_id_not_rejected testContains (fun _ _ hx => decide_eq_true hx)
    (mkPState [] ("events") 10000 [] []) recEmptyID []
    ⟨"2024-03-15T14:00:00Z", "", "us-east-1", "", "123456789012"⟩
    ⟨some ("2024-03-15T12:34:56Z"), none, some ("us-east-1"), none, some ("123456789012")⟩
    (by decide) (by decide) (by decide) (Or.inl (by decide))

theorem write_failed_buffer (w : JSONLWriter) (world : World) (accountID region : String)
    (t : GoTime) (r : RawRecord)
    (hfail : (w.Write world accountID region t r).2.2 = false) :
    alookup (w.Write world accountID region t r).1.buffers (partKey accountID region t)
      = some (((alookup w.buffers (partKey accountID region t)).getD []) ++ [r]) := by
  simp only [JSONLWriter.Write, JSONLWriter.flushBufferLocked] at hfail ⊢
  by_cases hth : w.eventsPerFile ≤ (((alookup w.buffers (partKey accountID region t)).getD []) ++ [r]).length
  · simp only [hth, if_true] at hfail ⊢
    have hne : ¬(((alookup w.buffers (partKey accountID region t)).getD []) ++ [r]) = [] := by
      simp
    simp only [hne, if_false] at hfail ⊢
    cases hsched : world.failures with
    | nil => simp only [hsched] at hfail; exact Bool.noConfusion hfail
    | cons b rest =>
        cases b with
        | true =>
            simp only [hsched]
            exact alookup_aset_self _ _ _
        | false => simp only [hsched] at hfail; exact Bool.noConfusion hfail
  · simp only [hth, if_false] at hfail
    exact Bool.noConfusion hfail

/-- C8 theorem (amended): if the sink write call for a record returns an
error, the event ID is not added to the bloom filter and `events_written`
is not incremented — but the record is NOT lost from the writer: it is
still buffered under its partition key, so a later successful flush will
write it to a JSONL file within the same run. -/
theorem sink_write_error_disposition
    (test : List String → String → Bool) (st : PState) (r : RawRecord)
    (m : MinimalEvent) (t : GoTime)
    (hp : jsonUnmarshalMinimal r = some m)
    (hdup : test st.filter m.eventID = false)
    (ht : parseRFC3339 m.eventTime = some t)
    (hacc : ¬(if m.recipientAccountID = ("") then m.userIdentityAccountID
        else m.recipientAccountID) = (""))
    (hfail : (st.writer.Write st.world
        (if m.recipientAccountID = ("") then m.userIdentityAccountID else m.recipientAccountID)
        m.awsRegion t r).2.2 = false) :
    (processRecord test st r).filter = st.filter ∧
    (processRecord test st r).stats.eventsWritten = st.stats.eventsWritten ∧
    r ∈ ((alookup (processRecord test st r).writer.buffers
        (partKey (if m.recipientAccountID = ("") then m.userIdentityAccountID
          else m.recipientAccountID) m.awsRegion t)).getD []) := by
  simp only [processRecord, hp, hdup, ht, Bool.false_eq_true, if_false, hacc, hfail]
  refine ⟨trivial, trivial, ?_⟩
  rw [write_failed_buffer st.writer st.world _ m.awsRegion t r hfail]
  simp

/-- Witness for C8 at a concrete input: with `events_per_file = 1` and the
first flush attempt failing, processing `recA` errors its sink write; the
filter and `events_written` are untouched and `recA` stays buffered. -/
theorem sink_write_error_disposition_witness :
    (processRecord testContains (mkPState [] ("events") 1 [] [true]) recA).filter
      = (mkPState [] ("events") 1 [] [true]).filter ∧
    (processRecord testContains (mkPState [] ("events") 1 [] [true]) recA).stats.eventsWritten
      = (mkPState [] ("events") 1 [] [true]).stats.eventsWritten ∧
    recA ∈ ((alookup (processRecord testContains (mkPState [] ("events") 1 [] [true]) recA).writer.buffers
        (partKey ("123456789012") ("us-east-1") t0)).getD []) := by
  have h := sink_write_error_disposition testContains (mkPState [] ("events") 1 [] [true]) recA
    ⟨"2024-03-15T12:34:56Z", "A", "us-east-1", "", "123456789012"⟩ t0
    (by decide) (by decide) (by decide) (by decide) (by decide)
  exact ⟨h.1, h.2.1, h.2.2⟩

/-- C8 counterexample to the claim as stated: in a concrete run
(`events_per_file = 1`, first flush attempt fails) the sink write for
`recA` returns an error — `events_written` stays 0 and the filter stays
empty — yet the final `FlushAll` of the very same run writes `recA` to a
JSONL file, so the offending record is NOT lost from the run's output. -/
theorem sink_write_error_record_reappears :
    (runPipeline testContains (mkPState [] ("events") 1 [] [true]) [⟨[recA], false⟩]).stats.eventsWritten = 0 ∧
    (runPipeline testContains (mkPState [] ("events") 1 [] [true]) [⟨[recA], false⟩]).filter = [] ∧
    ∃ p ∈ (runPipeline testContains (mkPState [] ("events") 1 [] [true]) [⟨[recA], false⟩]).world.fs,
      recA ∈ p.2 := by
  refine ⟨by decide, by decide, ⟨fpath 1, [recA]⟩, by decide, by decide⟩

theorem goodLog_append : ∀ tr b : List Act, GoodLog tr → GoodLog b → GoodLog (tr ++ b)
  | [], b, _, hb => by simpa using hb
  | [x], [], hx, _ => by simpa using hx
  | [x], y :: bs, hx, hb => by
      simp only [List.cons_append, List.nil_append, GoodLog]
      exact ⟨fun id2 hxx => absurd hxx (hx id2), hb⟩
  | x :: z :: tr2, b, hx, hb => by
      simp only [List.cons_append, GoodLog]
      exact ⟨hx.1, by
        have := goodLog_append (z :: tr2) b hx.2 hb
        simpa using this⟩

theorem goodLog_fileFlush (path : String) (lines : List RawRecord) :
    GoodLog [Act.fileFlush path lines] := by
  simp [GoodLog]

theorem goodLog_writeFalse (id2 : String) : GoodLog [Act.sinkWriteReturn id2 false] := by
  simp [GoodLog]

theorem goodLog_writeTrueAdd (id2 : String) :
    GoodLog [Act.sinkWriteReturn id2 true, Act.addCall id2] := by
  simp [GoodLog]

theorem flushBufferLocked_log (w : JSONLWriter) (world : World) (key : String)
    (events : List RawRecord) :
    ∃ b, (w.flushBufferLocked world key events).2.1.log = world.log ++ b ∧ GoodLog b := by
  simp only [JSONLWriter.flushBufferLocked]
  by_cases he : events = []
  · exact ⟨[], by simp [he], trivial⟩
  · simp only [he, if_false]
    cases hsched : world.failures with
    | nil => exact ⟨[Act.fileFlush _ events], rfl, goodLog_fileFlush _ _⟩
    | cons b2 rest =>
        cases b2 with
        | true => exact ⟨[], by simp, trivial⟩
        | false => exact ⟨[Act.fileFlush _ events], rfl, goodLog_fileFlush _ _⟩

theorem write_log (w : JSONLWriter) (world : World) (accountID region : String)
    (t : GoTime) (r : RawRecord) :
    ∃ b, (w.Write world accountID region t r).2.1.log = world.log ++ b ∧ GoodLog b := by
  simp only [JSONLWriter.Write]
  by_cases hth : w.eventsPerFile ≤ (((alookup w.buffers (partKey accountID region t)).getD []) ++ [r]).length
  · simp only [hth, if_true]
    exact flushBufferLocked_log _ world _ _
  · simp only [hth, if_false]
    exact ⟨[], by simp, trivial⟩

theorem processRecord_goodLog (test : List String → String → Bool) (st : PState)
    (r : RawRecord) (h : GoodLog st.world.log) :
    GoodLog (processRecord test st r).world.log := by
  simp only [processRecord]
  cases hp : jsonUnmarshalMinimal r with
  | none => exact h
  | some m =>
      by_cases hdup : test st.filter m.eventID
      · simp only [hdup, if_true]; exact h
      · simp only [hdup, if_false, Bool.false_eq_true]
        cases hT : parseRFC3339 m.eventTime with
        | none => exact h
        | some t =>
            by_cases hacc : (if m.recipientAccountID = ("") then m.userIdentityAccountID
                else m.recipientAccountID) = ("")
            · simp only [hacc, if_true]; exact h
            · simp only [hacc, if_false]
              obtain ⟨b, hb, hgb⟩ := write_log st.writer st.world
                (if m.recipientAccountID = ("") then m.userIdentityAccountID
                  else m.recipientAccountID) m.awsRegion t r
              cases hok : (st.writer.Write st.world
                  (if m.recipientAccountID = ("") then m.userIdentityAccountID
                    else m.recipientAccountID) m.awsRegion t r).2.2 with
              | false =>
                  simp only [hok, if_false, Bool.false_eq_true]
                  rw [hb, List.append_assoc]
                  exact goodLog_append _ _ h
                    (goodLog_append b _ hgb (goodLog_writeFalse m.eventID))
              | true =>
                  simp only [hok, if_true]
                  rw [hb, List.append_assoc, List.append_assoc]
                  exact goodLog_append _ _ h
                    (goodLog_append b _ hgb (by
                      simpa using goodLog_writeTrueAdd m.eventID))

theorem processRecords_goodLog (test : List String → String → Bool) (st : PState)
    (records : List RawRecord) (h : GoodLog st.world.log) :
    GoodLog (processRecords test st records).world.log := by
  induction records generalizing st with
  | nil => exact h
  | cons r rest ih => exact ih (processRecord test st r) (processRecord_goodLog test st r h)

theorem processFile_goodLog (test : List String → String → Bool) (st : PState)
    (file : ProcessedFile) (h : GoodLog st.world.log) :
    GoodLog (processFile test st file).world.log := by
  simp only [processFile]
  by_cases he : file.err
  · simp only [he, if_true]; exact h
  · simp only [he, if_false, Bool.false_eq_true]
    exact processRecords_goodLog test st file.records h

theorem flushAllGo_goodLog : ∀ (ks : List String) (w : JSONLWriter) (world : World),
    GoodLog world.log → GoodLog (flushAllGo ks w world).2.log
  | [], _, _, h => h
  | k :: ks, w, world, h => by
      simp only [flushAllGo]
      obtain ⟨b, hb, hgb⟩ := flushBufferLocked_log w world k ((alookup w.buffers k).getD [])
      exact flushAllGo_goodLog ks _ _ (by rw [hb]; exact goodLog_append _ _ h hgb)

/-- C5 theorem (amended): along any sequential run of the processor stage
started from a fresh trace, every successful sink-write return in the
action trace is immediately followed by the `add(event_id)` call for that
event (so a buffered event has `add` called before the later flush that
writes it, while the event whose write triggers an inline flush reaches
its output file just before its `add`); the original "at or before the
write returned" ordering does not hold. -/
theorem add_follows_write_immediately (test : List String → String → Bool)
    (filter0 : List String) (eventsDir : String) (eventsPerFile : Nat)
    (fs0 : List (String × List RawRecord)) (failures : List Bool)
    (files : List ProcessedFile) :
    GoodLog ((runPipeline test (mkPState filter0 eventsDir eventsPerFile fs0 failures) files).world.log) := by
  simp only [runPipeline, JSONLWriter.FlushAll]
  apply flushAllGo_goodLog
  have hinit : GoodLog (mkPState filter0 eventsDir eventsPerFile fs0 failures).world.log := trivial
  generalize mkPState filter0 eventsDir eventsPerFile fs0 failures = st0 at hinit
  induction files generalizing st0 with
  | nil => exact hinit
  | cons f rest ih => exact ih (processFile test st0 f) (processFile_goodLog test st0 f hinit)

/-- C5 counterexample: in a concrete run (`events_per_file = 1`, one
record), the record is written to its JSONL file by the inline flush at
trace position 0, its sink write call returns at position 1, and
`add(event_id)` is only called at position 2 — so no `add` occurred at or
before the moment the sink write call returned, refuting the claim as
stated. -/
theorem bloom_before_write_counterexample :
    ¬ bloomBeforeWriteClaim
        ((runPipeline testContains (mkPState [] ("events") 1 [] []) [⟨[recA], false⟩]).world.log) := by
  intro h
  have hlog : (runPipeline testContains (mkPState [] ("events") 1 [] []) [⟨[recA], false⟩]).world.log
      = [Act.fileFlush (fpath 0) [recA], Act.sinkWriteReturn ("A") true, Act.addCall ("A")] := by
    decide
  have h0 := h 0 (fpath 0) [recA] (by rw [hlog]; decide) recA (by decide) 1 true
    (by rw [hlog]; decide)
  obtain ⟨k, hk, ha⟩ := h0
  rw [hlog] at ha
  interval_cases k <;> exact absurd ha (by decide)

theorem parseRFC3339_wall_bounds (s : String) (t : GoTime) (h : parseRFC3339 s = some t) :
    t.hour ≤ 23 ∧ t.minute ≤ 59 := by
  cases hf : parseFieldsRFC3339 s.data with
  | none => simp only [parseRFC3339, hf] at h; exact Option.noConfusion h
  | some f =>
      simp only [parseRFC3339, hf, validateFields] at h
      split at h
      · rename_i hc
        obtain rfl : GoTime.mk f.year f.month f.day f.hour f.minute f.second f.offsetMinutes = t :=
          Option.some.inj h
        exact ⟨hc.2.2.2.2.1, hc.2.2.2.2.2.1⟩
      · exact Option.noConfusion h

theorem utcCalendarHour_zero_offset (t : GoTime) (hz : t.offsetMinutes = 0)
    (hh : t.hour ≤ 23) (hm : t.minute ≤ 59) :
    utcCalendarHour t = (t.year, t.month, t.day, t.hour) := by
  unfold utcCalendarHour
  rw [hz]
  have h1 : ¬((((t.hour * 60 + t.minute : Nat) : Int) - 0) < 0) := by omega
  have h2 : ¬((1440 : Int) ≤ (((t.hour * 60 + t.minute : Nat) : Int) - 0)) := by omega
  simp only [h1, h2, if_false]
  have h3 : ((((t.hour * 60 + t.minute : Nat) : Int) - 0)).toNat = t.hour * 60 + t.minute := by
    omega
  rw [h3]
  have h4 : (t.hour * 60 + t.minute) / 60 = t.hour := by omega
  rw [h4]

theorem write_key_present (w : JSONLWriter) (world : World) (accountID region : String)
    (t : GoTime) (r : RawRecord) :
    (alookup (w.Write world accountID region t r).1.buffers (partKey accountID region t)).isSome = true := by
  simp only [JSONLWriter.Write, JSONLWriter.flushBufferLocked]
  by_cases hth : w.eventsPerFile ≤ (((alookup w.buffers (partKey accountID region t)).getD []) ++ [r]).length
  · simp only [hth, if_true]
    have hne : ¬(((alookup w.buffers (partKey accountID region t)).getD []) ++ [r]) = [] := by
      simp
    simp only [hne, if_false]
    cases hsched : world.failures with
    | nil => rw [alookup_aset_self]; rfl
    | cons b2 rest =>
        cases b2 with
        | true => rw [alookup_aset_self]; rfl
        | false => rw [alookup_aset_self]; rfl
  · simp only [hth, if_false]
    rw [alookup_aset_self]; rfl

/-- C6 theorem (amended): the `YYYY/MM/DD/HH` components of the partition
key a record is buffered under are the wall-clock calendar hour of its
parsed `event_time` rendered in the timestamp's own UTC offset (Go's
`Format` does not convert to UTC); they equal the UTC calendar hour
exactly in the zero-offset case (`Z` or `+00:00`, as in all CloudTrail
timestamps), stated here for any successfully parsed zero-offset value. -/
theorem utc_partition_zero_offset (s : String) (t : GoTime) (accountID region : String)
    (w : JSONLWriter) (world : World) (r : RawRecord)
    (hp : parseRFC3339 s = some t) (hz : t.offsetMinutes = 0) :
    partKey accountID region t
      = accountID ++ ("/") ++ region ++ ("/") ++ fmtYMDH (utcCalendarHour t) ∧
    (alookup (w.Write world accountID region t r).1.buffers (partKey accountID region t)).isSome = true := by
  obtain ⟨hh, hm⟩ := parseRFC3339_wall_bounds s t hp
  constructor
  · rw [utcCalendarHour_zero_offset t hz hh hm]
    rfl
  · exact write_key_present w world accountID region t r

/-- Witness for C6 (amended) at a concrete input: `2024-03-15T12:34:56Z`
partitions under `2024/03/15/12`, which is its UTC calendar hour. -/
theorem utc_partition_zero_offset_witness :
    partKey ("123456789012") ("us-east-1") t0
      = ("123456789012") ++ ("/") ++ ("us-east-1") ++ ("/") ++ fmtYMDH (utcCalendarHour t0) ∧
    (alookup ((JSONLWriter.New ("events") 10000).Write ⟨[], [], []⟩ ("123456789012") ("us-east-1") t0 recA).1.buffers
      (partKey ("123456789012") ("us-east-1") t0)).isSome = true :=
  utc_partition_zero_offset ("2024-03-15T12:34:56Z") t0 ("123456789012") ("us-east-1")
    (JSONLWriter.New ("events") 10000) ⟨[], [], []⟩ recA (by decide) (by decide)

/-- C6 counterexample: a record whose `event_time` carries the non-zero
offset `+02:00` is buffered under the partition hour `12` (the wall clock
of the timestamp), while its UTC calendar hour is `10` — the partition
components do not equal the UTC hour, refuting the claim as stated. -/
theorem utc_partition_counterexample :
    ∃ t : GoTime, parseRFC3339 ("2024-03-15T12:34:56+02:00") = some t ∧
      alookup (processRecord testContains (mkPState [] ("events") 10000 [] [])
          (RawRecord.obj ⟨some ("2024-03-15T12:34:56+02:00"), some ("B"), some ("us-east-1"),
            none, some ("123456789012")⟩)).writer.buffers
          ("123456789012/us-east-1/2024/03/15/12")
        = some [RawRecord.obj ⟨some ("2024-03-15T12:34:56+02:00"), some ("B"), some ("us-east-1"),
            none, some ("123456789012")⟩] ∧
      utcCalendarHour t = (2024, 3, 15, 10) ∧
      goFormatYMDH t ≠ fmtYMDH (utcCalendarHour t) := by
  refine ⟨⟨2024, 3, 15, 12, 34, 56, 120⟩, by decide, by decide, by decide, by decide⟩

/-- C9: evidence that closed files are NOT immune to later runs.  Run 1
writes the single record `recA` into the scenario partition and its final
flush closes `events_00000.jsonl` with exactly that record.  Run 2 starts
a fresh writer over the same filesystem (the per-partition `NNNNN`
counters are in-memory and restart at 0) and writes `recD` into the same
partition; its flush calls `os.Create` on the SAME path
`events_00000.jsonl`, truncating it: afterwards the file holds only
`recD` and the first run's content is gone.  Within one run counters only
increase, so this never happens inside a run — only across runs. -/
theorem closed_file_overwritten_across_runs :
    alookup run1fs (fpath 0) = some [recA] ∧ run2fs = [(fpath 0, [recD])] :=
  ⟨by decide, by decide⟩

theorem alookup_cons_self {α : Type} (k : String) (x : α) (rest : List (String × α)) :
    alookup ((k, x) :: rest) k = some x := by
  simp [alookup]

theorem aset_cons_self {α : Type} (k : String) (x v : α) (rest : List (String × α)) :
    aset ((k, x) :: rest) k v = (k, v) :: rest := by
  simp [aset]

theorem aset_not_mem {α : Type} (l : List (String × α)) (k : String) (v : α)
    (h : ∀ p ∈ l, p.1 ≠ k) : aset l k v = l ++ [(k, v)] := by
  induction l with
  | nil => rfl
  | cons p rest ih =>
      have hp : ¬p.1 = k := h p (List.mem_cons_self _ _)
      simp only [aset, hp, if_false, List.cons_append, List.cons.injEq, true_and]
      exact ih (fun q hq => h q (List.mem_cons_of_mem _ hq))

theorem write_below_threshold (w : JSONLWriter) (world : World) (accountID region : String)
    (t : GoTime) (r : RawRecord)
    (h : (((alookup w.buffers (partKey accountID region t)).getD []) ++ [r]).length < w.eventsPerFile) :
    w.Write world accountID region t r =
      ({ w with
          buffers :=
            aset w.buffers (partKey accountID region t)
              (((alookup w.buffers (partKey accountID region t)).getD []) ++ [r]) },
        world, true) := by
  have hth : ¬(w.eventsPerFile ≤ (((alookup w.buffers (partKey accountID region t)).getD []) ++ [r]).length) :=
    Nat.not_le.mpr h
  simp only [JSONLWriter.Write, hth, if_false]

theorem write_at_threshold_success (w : JSONLWriter) (world : World) (accountID region : String)
    (t : GoTime) (r : RawRecord)
    (hth : w.eventsPerFile ≤ (((alookup w.buffers (partKey accountID region t)).getD []) ++ [r]).length)
    (hsched : world.failures = []) :
    w.Write world accountID region t r =
      ({ w with
          buffers :=
            aset (aset w.buffers (partKey accountID region t)
                (((alookup w.buffers (partKey accountID region t)).getD []) ++ [r]))
              (partKey accountID region t) [],
          nextFileCounter :=
            aset w.nextFileCounter (partKey accountID region t)
              (((alookup w.nextFileCounter (partKey accountID region t)).getD 0) + 1) },
        { world with
            fs :=
              aset world.fs
                (filepathJoin [w.eventsDir, partKey accountID region t,
                  ("events_") ++ padNum 5 ((alookup w.nextFileCounter (partKey accountID region t)).getD 0) ++ (".jsonl")])
                (((alookup w.buffers (partKey accountID region t)).getD []) ++ [r]),
            log := world.log ++ [Act.fileFlush
              (filepathJoin [w.eventsDir, partKey accountID region t,
                ("events_") ++ padNum 5 ((alookup w.nextFileCounter (partKey accountID region t)).getD 0) ++ (".jsonl")])
              (((alookup w.buffers (partKey accountID region t)).getD []) ++ [r])] },
        true) := by
  have hne : ¬((((alookup w.buffers (partKey accountID region t)).getD []) ++ [r]) = []) := by
    simp
  simp only [JSONLWriter.Write, JSONLWriter.flushBufferLocked, hth, if_true, hne, if_false, hsched]

theorem writeMany_rep (r : RawRecord) :
    ∀ k : Nat, k ≤ 25000 →
      (writeMany (JSONLWriter.New ("events") 10000) ⟨[], [], []⟩ ("123456789012") ("us-east-1") t0 (List.replicate k r)).1.buffers
        = (if k = 0 then [] else [(key0, List.replicate (k % 10000) r)]) ∧
      (writeMany (JSONLWriter.New ("events") 10000) ⟨[], [], []⟩ ("123456789012") ("us-east-1") t0 (List.replicate k r)).1.nextFileCounter
        = (if k < 10000 then [] else [(key0, k / 10000)]) ∧
      (writeMany (JSONLWriter.New ("events") 10000) ⟨[], [], []⟩ ("123456789012") ("us-east-1") t0 (List.replicate k r)).1.eventsPerFile = 10000 ∧
      (writeMany (JSONLWriter.New ("events") 10000) ⟨[], [], []⟩ ("123456789012") ("us-east-1") t0 (List.replicate k r)).1.eventsDir = ("events") ∧
      (writeMany (JSONLWriter.New ("events") 10000) ⟨[], [], []⟩ ("123456789012") ("us-east-1") t0 (List.replicate k r)).2.fs
        = (List.range (k / 10000)).map (fun i => (fpath i, List.replicate 10000 r)) ∧
      (writeMany (JSONLWriter.New ("events") 10000) ⟨[], [], []⟩ ("123456789012") ("us-east-1") t0 (List.replicate k r)).2.failures = [] := by
  intro k
  induction k with
  | zero => exact fun _ => ⟨rfl, rfl, rfl, rfl, rfl, rfl⟩
  | succ k ih =>
      intro hk
      obtain ⟨hb, hc, hn, hd, hfs, hfl⟩ := ih (Nat.le_of_succ_le hk)
      set P := writeMany (JSONLWriter.New ("events") 10000) ⟨[], [], []⟩ ("123456789012") ("us-east-1") t0 (List.replicate k r) with hP
      have hstep : writeMany (JSONLWriter.New ("events") 10000) ⟨[], [], []⟩ ("123456789012") ("us-east-1") t0 (List.replicate (k + 1) r)
          = ((P.1.Write P.2 ("123456789012") ("us-east-1") t0 r).1,
             (P.1.Write P.2 ("123456789012") ("us-east-1") t0 r).2.1) := by
        rw [List.replicate_succ']
        simp only [writeMany, List.foldl_append, List.foldl_cons, List.foldl_nil, hP]
      have hkey : partKey ("123456789012") ("us-east-1") t0 = key0 := by decide
      have hbuf : (alookup P.1.buffers (partKey ("123456789012") ("us-east-1") t0)).getD []
          = List.replicate (k % 10000) r := by
        rw [hkey, hb]
        by_cases hk0 : k = 0
        · simp [hk0, alookup]
        · simp [hk0, alookup]
      rw [hstep]
      by_cases hflush : k % 10000 = 9999
      · -- the (k+1)-st write reaches the threshold and flushes inline
        have hk0 : k ≠ 0 := by omega
        have hth : P.1.eventsPerFile ≤
            (((alookup P.1.buffers (partKey ("123456789012") ("us-east-1") t0)).getD []) ++ [r]).length := by
          rw [hn, hbuf]
          simp only [List.length_append, List.length_replicate, List.length_cons, List.length_nil]
          omega
        have hw := write_at_threshold_success P.1 P.2 ("123456789012") ("us-east-1") t0 r hth hfl
        rw [hw, hkey]
        dsimp only
        have hbufK : (alookup P.1.buffers key0).getD [] = List.replicate (k % 10000) r := by
          rw [← hkey]; exact hbuf
        have hcounterK : (alookup P.1.nextFileCounter key0).getD 0 = k / 10000 := by
          rw [hc]
          by_cases hlt : k < 10000
          · rw [if_pos hlt]
            simp only [alookup, Option.getD_none]
            omega
          · rw [if_neg hlt]
            simp [alookup]
        refine ⟨?_, ?_, hn, hd, ?_, hfl⟩
        · -- buffers
          have hmod : (k + 1) % 10000 = 0 := by omega
          rw [hbufK, hb, if_neg hk0, if_neg (by omega : ¬(k + 1 = 0)),
            aset_cons_self, aset_cons_self, hmod]
          simp
        · -- counters
          have hge : ¬(k + 1 < 10000) := by omega
          have hdivsucc : (k + 1) / 10000 = k / 10000 + 1 := by omega
          rw [hcounterK, hc, if_neg hge, hdivsucc]
          by_cases hlt : k < 10000
          · rw [if_pos hlt]
            rfl
          · rw [if_neg hlt, aset_cons_self]
        · -- filesystem
          have hfull : List.replicate (k % 10000) r ++ [r] = List.replicate 10000 r := by
            rw [← List.replicate_succ', hflush]
          have hdiv : k / 10000 = 0 ∨ k / 10000 = 1 := by omega
          have hsucc : (k + 1) / 10000 = k / 10000 + 1 := by omega
          rw [hd, hcounterK, hbufK, hfs, hfull, hsucc]
          rcases hdiv with h0 | h1
          · rw [h0]
            rfl
          · rw [h1]
            have hnomem : ∀ p ∈ List.map (fun i => (fpath i, List.replicate 10000 r)) (List.range 1),
                p.1 ≠ filepathJoin [("events"), key0, ("events_") ++ padNum 5 1 ++ (".jsonl")] := by
              intro p hp
              simp only [List.range_succ, List.range_zero, List.nil_append, List.map_cons,
                List.map_nil, List.mem_singleton] at hp
              rw [hp]
              exact (by decide :
                ¬fpath 0 = filepathJoin [("events"), key0, ("events_") ++ padNum 5 1 ++ (".jsonl")])
            rw [aset_not_mem _ _ _ hnomem]
            rfl
      · -- below threshold: no flush
        have hlen : (((alookup P.1.buffers (partKey ("123456789012") ("us-east-1") t0)).getD []) ++ [r]).length
            < P.1.eventsPerFile := by
          rw [hn, hbuf]
          simp only [List.length_append, List.length_replicate, List.length_cons, List.length_nil]
          omega
        have hw := write_below_threshold P.1 P.2 ("123456789012") ("us-east-1") t0 r hlen
        rw [hw, hkey]
        dsimp only
        have hbufK : (alookup P.1.buffers key0).getD [] = List.replicate (k % 10000) r := by
          rw [← hkey]; exact hbuf
        refine ⟨?_, ?_, hn, hd, ?_, hfl⟩
        · -- buffers
          have hmod : k % 10000 + 1 = (k + 1) % 10000 := by omega
          have hrep : List.replicate (k % 10000) r ++ [r] = List.replicate ((k + 1) % 10000) r := by
            rw [← List.replicate_succ', hmod]
          rw [hbufK, hrep, hb, if_neg (by omega : ¬(k + 1 = 0))]
          by_cases hk0 : k = 0
          · rw [if_pos hk0]
            rfl
          · rw [if_neg hk0, aset_cons_self]
        · -- counters
          rw [hc]
          by_cases hlt : k < 10000
          · rw [if_pos hlt, if_pos (by omega : k + 1 < 10000)]
          · rw [if_neg hlt, if_neg (by omega : ¬(k + 1 < 10000))]
            have hdiveq : (k + 1) / 10000 = k / 10000 := by omega
            rw [hdiveq]
        · -- filesystem
          rw [hfs]
          have hdiveq : (k + 1) / 10000 = k / 10000 := by omega
          rw [hdiveq]

theorem flushBufferLocked_success (w : JSONLWriter) (world : World) (key : String)
    (events : List RawRecord)
    (hne : ¬(events = []))
    (hsched : world.failures = []) :
    w.flushBufferLocked world key events =
      ({ w with
          buffers :=
            aset ({ w with
              nextFileCounter :=
                aset w.nextFileCounter key (((alookup w.nextFileCounter key).getD 0) + 1) } : JSONLWriter).buffers
              key [],
          nextFileCounter :=
            aset w.nextFileCounter key (((alookup w.nextFileCounter key).getD 0) + 1) },
        { world with
            fs :=
              aset world.fs
                (filepathJoin [w.eventsDir, key,
                  ("events_") ++ padNum 5 ((alookup w.nextFileCounter key).getD 0) ++ (".jsonl")])
                events,
            log := world.log ++ [Act.fileFlush
              (filepathJoin [w.eventsDir, key,
                ("events_") ++ padNum 5 ((alookup w.nextFileCounter key).getD 0) ++ (".jsonl")])
              events] },
        true) := by
  simp only [JSONLWriter.flushBufferLocked, hne, if_false, hsched]

theorem flushAll_single_buffer (w : JSONLWriter) (world : World)
    (buf l0 l1 : List RawRecord)
    (hbne : ¬(buf = []))
    (hb : w.buffers = [(key0, buf)])
    (hc : w.nextFileCounter = [(key0, 2)])
    (hd : w.eventsDir = ("events"))
    (hfl : world.failures = [])
    (hfs : world.fs = [(fpath 0, l0), (fpath 1, l1)]) :
    (w.FlushAll world).2.fs = [(fpath 0, l0), (fpath 1, l1), (fpath 2, buf)] := by
  have hkeys : w.buffers.map Prod.fst = [key0] := by
    rw [hb]
    rfl
  have hlook : (alookup w.buffers key0).getD [] = buf := by
    rw [hb, alookup_cons_self]
    rfl
  have hflush := flushBufferLocked_success w world key0 buf hbne hfl
  have hgo : (w.FlushAll world).2
      = (w.flushBufferLocked world key0 ((alookup w.buffers key0).getD [])).2.1 := by
    rw [JSONLWriter.FlushAll, hkeys]
    rfl
  rw [hgo, hlook, hflush]
  show aset world.fs
      (filepathJoin [w.eventsDir, key0,
        ("events_") ++ padNum 5 ((alookup w.nextFileCounter key0).getD 0) ++ (".jsonl")])
      buf = _
  rw [hc, hd, hfs]
  simp only [alookup_cons_self, Option.getD_some]
  have hnomem : ∀ p ∈ [(fpath 0, l0), (fpath 1, l1)],
      p.1 ≠ filepathJoin [("events"), key0, ("events_") ++ padNum 5 2 ++ (".jsonl")] := by
    intro p hp
    rcases List.mem_cons.mp hp with hp2 | hp2
    · rw [hp2]
      exact (by decide :
        ¬fpath 0 = filepathJoin [("events"), key0, ("events_") ++ padNum 5 2 ++ (".jsonl")])
    · simp only [List.mem_singleton] at hp2
      rw [hp2]
      exact (by decide :
        ¬fpath 1 = filepathJoin [("events"), key0, ("events_") ++ padNum 5 2 ++ (".jsonl")])
  rw [aset_not_mem _ _ _ hnomem]
  rfl

/-- C7: with `events_per_file = 10000` on the scenario partition:
(a) a write that leaves the partition buffer strictly below the threshold
only appends to the buffer — no flush happens, the filesystem and trace
are untouched, and the call succeeds; (b) after `k ≤ 25000` writes into
one partition, exactly `k / 10000` full files
`events_00000.jsonl, events_00001.jsonl, …` of 10000 lines each exist,
`k % 10000` records remain buffered, and the partition's file counter
stands at `k / 10000` (so the buffer is flushed inline exactly when its
length reaches the threshold, with the zero-padded counter incremented per
flush); (c) in particular, 25000 records followed by `FlushAll` yield
`events_00000.jsonl` (10000 lines), `events_00001.jsonl` (10000 lines)
and `events_00002.jsonl` (5000 lines). -/
theorem flush_threshold_and_numbering (r : RawRecord) :
    (∀ (w : JSONLWriter) (world : World) (accountID region : String) (t : GoTime) (rec : RawRecord),
      (((alookup w.buffers (partKey accountID region t)).getD []) ++ [rec]).length < w.eventsPerFile →
      w.Write world accountID region t rec =
        ({ w with
            buffers :=
              aset w.buffers (partKey accountID region t)
                (((alookup w.buffers (partKey accountID region t)).getD []) ++ [rec]) },
          world, true)) ∧
    (∀ k : Nat, k ≤ 25000 →
      (writeMany (JSONLWriter.New ("events") 10000) ⟨[], [], []⟩ ("123456789012") ("us-east-1") t0 (List.replicate k r)).1.buffers
        = (if k = 0 then [] else [(key0, List.replicate (k % 10000) r)]) ∧
      (writeMany (JSONLWriter.New ("events") 10000) ⟨[], [], []⟩ ("123456789012") ("us-east-1") t0 (List.replicate k r)).1.nextFileCounter
        = (if k < 10000 then [] else [(key0, k / 10000)]) ∧
      (writeMany (JSONLWriter.New ("events") 10000) ⟨[], [], []⟩ ("123456789012") ("us-east-1") t0 (List.replicate k r)).2.fs
        = (List.range (k / 10000)).map (fun i => (fpath i, List.replicate 10000 r))) ∧
    ((writeMany (JSONLWriter.New ("events") 10000) ⟨[], [], []⟩ ("123456789012") ("us-east-1") t0 (List.replicate 25000 r)).1.FlushAll
        (writeMany (JSONLWriter.New ("events") 10000) ⟨[], [], []⟩ ("123456789012") ("us-east-1") t0 (List.replicate 25000 r)).2).2.fs
      = [(fpath 0, List.replicate 10000 r), (fpath 1, List.replicate 10000 r),
         (fpath 2, List.replicate 5000 r)] := by
  refine ⟨write_below_threshold, ?_, ?_⟩
  · intro k hk
    obtain ⟨hb, hc, _, _, hfs, _⟩ := writeMany_rep r k hk
    exact ⟨hb, hc, hfs⟩
  · obtain ⟨hb, hc, hn, hd, hfs, hfl⟩ := writeMany_rep r 25000 (by omega)
    norm_num at hb hc hfs
    refine flushAll_single_buffer _ _ (List.replicate 5000 r)
      (List.replicate 10000 r) (List.replicate 10000 r)
      (by
        intro h
        have hlen := congrArg List.length h
        simp only [List.length_replicate, List.length_nil] at hlen
        omega)
      hb hc hd hfl ?_
    rw [hfs]
    rfl

/-- Witness for C7 at a concrete input: a single write into an empty
buffer with threshold 10000 appends and does not flush. -/
theorem flush_threshold_and_numbering_witness :
    (JSONLWriter.New ("events") 10000).Write ⟨[], [], []⟩ ("123456789012") ("us-east-1") t0 recA
      = ({ JSONLWriter.New ("events") 10000 with
            buffers :=
              aset (JSONLWriter.New ("events") 10000).buffers
                (partKey ("123456789012") ("us-east-1") t0)
                (((alookup (JSONLWriter.New ("events") 10000).buffers
                    (partKey ("123456789012") ("us-east-1") t0)).getD []) ++ [recA]) },
          ⟨[], [], []⟩, true) :=
  (flush_threshold_and_numbering recA).1 (JSONLWriter.New ("events") 10000) ⟨[], [], []⟩
    ("123456789012") ("us-east-1") t0 recA (by decide)

theorem listerFold_flatten (bucket : String) :
    ∀ (pages : List (List S3Object)) (acc : ListerAcc),
      pages.foldl (fun a page => page.foldl (listerStep bucket) a) acc
        = (pages.flatten).foldl (listerStep bucket) acc := by
  intro pages
  induction pages with
  | nil => intro acc; rfl
  | cons p ps ih =>
      intro acc
      simp only [List.foldl_cons, List.flatten_cons, List.foldl_append]
      exact ih (p.foldl (listerStep bucket) acc)

theorem listerFold_jobs_sub (bucket : String) :
    ∀ (os : List S3Object) (acc : ListerAcc) (j : DownloadJob),
      j ∈ (os.foldl (listerStep bucket) acc).jobs →
      j ∈ acc.jobs ∨ j.key ∈ os.map S3Object.key := by
  intro os
  induction os with
  | nil => intro acc j hj; exact Or.inl hj
  | cons o os ih =>
      intro acc j hj
      rw [List.foldl_cons] at hj
      rcases ih (listerStep bucket acc o) j hj with hin | hin
      · simp only [listerStep] at hin
        by_cases hgz : stringHasSuffix o.key (".json.gz")
        · simp only [hgz, if_true] at hin
          rcases List.mem_append.mp hin with hin2 | hin2
          · exact Or.inl hin2
          · right
            simp only [List.mem_singleton] at hin2
            rw [hin2]
            simp
        · simp only [hgz, if_false, Bool.false_eq_true] at hin
          exact Or.inl hin
      · right
        simp only [List.map_cons, List.mem_cons]
        exact Or.inr hin

theorem listerFold_inv (bucket : String) :
    ∀ (os : List S3Object) (acc : ListerAcc),
      acc.filesListed = acc.jobs.length →
      (acc.filesListed = 0 → acc.upserts = []) →
      (0 < acc.filesListed → (acc.jobs.map (fun j => j.key)).getLast? = some acc.lastSeenKey) →
      (os.foldl (listerStep bucket) acc).filesListed = (os.foldl (listerStep bucket) acc).jobs.length ∧
      ((os.foldl (listerStep bucket) acc).filesListed = 0 → (os.foldl (listerStep bucket) acc).upserts = []) ∧
      (0 < (os.foldl (listerStep bucket) acc).filesListed →
        ((os.foldl (listerStep bucket) acc).jobs.map (fun j => j.key)).getLast?
          = some (os.foldl (listerStep bucket) acc).lastSeenKey) := by
  intro os
  induction os with
  | nil => intro acc h1 h2 h3; exact ⟨h1, h2, h3⟩
  | cons o os ih =>
      intro acc h1 h2 h3
      rw [List.foldl_cons]
      apply ih
      · simp only [listerStep]
        by_cases hgz : stringHasSuffix o.key (".json.gz")
        · simp only [hgz, if_true]
          simp [h1]
        · simp only [hgz, if_false, Bool.false_eq_true]
          exact h1
      · simp only [listerStep]
        by_cases hgz : stringHasSuffix o.key (".json.gz")
        · simp only [hgz, if_true]
          intro hcontra
          exact absurd hcontra (by omega)
        · simp only [hgz, if_false, Bool.false_eq_true]
          exact h2
      · simp only [listerStep]
        by_cases hgz : stringHasSuffix o.key (".json.gz")
        · simp only [hgz, if_true]
          intro _
          simp [List.getLast?_concat]
        · simp only [hgz, if_false, Bool.false_eq_true]
          exact h3

theorem listerFold_mono (bucket : String) :
    ∀ (os : List S3Object) (acc : ListerAcc),
      List.Pairwise (· < ·) (os.map S3Object.key) →
      List.Pairwise (· ≤ ·) acc.upserts →
      (∀ u ∈ acc.upserts, u ≤ acc.lastSeenKey) →
      (acc.upserts ≠ [] → ∀ o ∈ os, acc.lastSeenKey ≤ o.key) →
      List.Pairwise (· ≤ ·) (os.foldl (listerStep bucket) acc).upserts ∧
      (∀ u ∈ (os.foldl (listerStep bucket) acc).upserts,
        u ≤ (os.foldl (listerStep bucket) acc).lastSeenKey) := by
  intro os
  induction os with
  | nil => intro acc _ h2 h3 _; exact ⟨h2, h3⟩
  | cons o os ih =>
      intro acc hsorted h2 h3 h4
      simp only [List.map_cons, List.pairwise_cons] at hsorted
      obtain ⟨hhead, htail⟩ := hsorted
      simp only [List.foldl_cons]
      by_cases hgz : stringHasSuffix o.key (".json.gz")
      · -- enqueued: lastSeen becomes o.key, maybe a checkpoint is appended
        have hls : ∀ u ∈ acc.upserts, u ≤ o.key := by
          intro u hu
          have hne : acc.upserts ≠ [] := by
            intro hnil; rw [hnil] at hu; exact absurd hu (List.not_mem_nil u)
          exact le_trans (h3 u hu) (h4 hne o (List.mem_cons_self _ _))
        apply ih
        · exact htail
        · simp only [listerStep, hgz, if_true]
          by_cases hck : (acc.filesListed + 1) % 100 = 0
          · simp only [hck, if_true]
            refine List.pairwise_append.mpr ⟨h2, List.pairwise_singleton _ _, ?_⟩
            intro u hu v hv
            simp only [List.mem_singleton] at hv
            rw [hv]
            exact hls u hu
          · simp only [hck, if_false]
            exact h2
        · simp only [listerStep, hgz, if_true]
          by_cases hck : (acc.filesListed + 1) % 100 = 0
          · simp only [hck, if_true]
            intro u hu
            rcases List.mem_append.mp hu with hu2 | hu2
            · exact hls u hu2
            · simp only [List.mem_singleton] at hu2
              rw [hu2]
          · simp only [hck, if_false]
            exact hls
        · simp only [listerStep, hgz, if_true]
          intro _ o2 ho2
          exact le_of_lt (hhead o2.key (List.mem_map_of_mem S3Object.key ho2))
      · -- skipped: accumulator unchanged
        apply ih
        · exact htail
        · simp only [listerStep, hgz, if_false, Bool.false_eq_true]
          exact h2
        · simp only [listerStep, hgz, if_false, Bool.false_eq_true]
          exact h3
        · simp only [listerStep, hgz, if_false, Bool.false_eq_true]
          intro hne o2 ho2
          exact h4 hne o2 (List.mem_cons_of_mem _ ho2)

/-- C2: if the persisted `last_processed_key` is non-empty at run start
(so `StartAfter` is set to it), then — under the hypothesis that the S3
paginator with that `StartAfter` returns only keys strictly greater than
it — every `DownloadJob` the lister enqueues has a key lexicographically
greater than the persisted key (none is ≤ it). -/
theorem start_after_correctness (bucket lastKey : String) (pages : List (List S3Object))
    (pageError : Bool)
    (hne : lastKey ≠ (""))
    (hs3 : ∀ k, startAfterOf lastKey = some k → ∀ page ∈ pages, ∀ o ∈ page, k < o.key) :
    ∀ j ∈ (processAccountRegion bucket lastKey pages pageError).jobs, lastKey < j.key := by
  intro j hj
  have hsa : startAfterOf lastKey = some lastKey := by
    simp [startAfterOf, hne]
  have hkeys := hs3 lastKey hsa
  have hjobs : (processAccountRegion bucket lastKey pages pageError).jobs
      = ((pages.flatten).foldl (listerStep bucket) ⟨0, "", [], []⟩).jobs := by
    simp only [processAccountRegion, listerFold_flatten]
    split
    · rfl
    · split
      · rfl
      · rfl
  rw [hjobs] at hj
  rcases listerFold_jobs_sub bucket pages.flatten ⟨0, "", [], []⟩ j hj with hin | hin
  · exact absurd hin (List.not_mem_nil j)
  · obtain ⟨o, ho, hko⟩ := List.mem_map.mp hin
    obtain ⟨page, hpage, hopage⟩ := List.mem_flatten.mp ho
    rw [← hko]
    exact hkeys page hpage o hopage

/-- Witness for C2 at a concrete input: with persisted key `a` and one
page containing the single greater key `b.json.gz`, the enqueued job's key
is greater than `a`. -/
theorem start_after_correctness_witness :
    ("a" : String) < (DownloadJob.mk ("bkt") ("b.json.gz") 1 2).key := by
  have h := start_after_correctness ("bkt") ("a") [[⟨"b.json.gz", 1, 2⟩]] false (by decide)
    (by
      intro k hk page hpage o ho
      have hka : k = ("a") := by
        simp only [startAfterOf, if_neg (by decide : ¬("a" : String) = (""))] at hk
        exact (Option.some.inj hk).symm
      subst hka
      simp only [List.mem_singleton] at hpage
      subst hpage
      simp only [List.mem_singleton] at ho
      subst ho
      rw [String.lt_iff_toList_lt]
      decide)
  exact h (DownloadJob.mk ("bkt") ("b.json.gz") 1 2) (by decide)

/-- C3: under the hypothesis that the paginator yields keys in strictly
ascending lexicographic order, the sequence of keys the lister passes to
the state-store upsert (the every-100-files checkpoints followed by the
final checkpoint) is lexicographically non-decreasing. -/
theorem high_water_mark_monotone (bucket lastKey : String) (pages : List (List S3Object))
    (hsorted : List.Pairwise (· < ·) ((pages.flatten).map S3Object.key)) :
    List.Pairwise (· ≤ ·) (processAccountRegion bucket lastKey pages false).upserts := by
  have hmono := listerFold_mono bucket pages.flatten ⟨0, "", [], []⟩ hsorted
    List.Pairwise.nil (by intro u hu; exact absurd hu (List.not_mem_nil u))
    (fun hcontra => absurd rfl hcontra)
  simp only [processAccountRegion, listerFold_flatten, if_false, Bool.false_eq_true]
  split
  · refine List.pairwise_append.mpr ⟨hmono.1, List.pairwise_singleton _ _, ?_⟩
    intro u hu v hv
    simp only [List.mem_singleton] at hv
    rw [hv]
    exact hmono.2 u hu
  · exact hmono.1

/-- Witness for C3 at a concrete input: two ascending `.json.gz` keys
yield a non-decreasing upsert sequence. -/
theorem high_water_mark_monotone_witness :
    List.Pairwise (· ≤ ·)
      (processAccountRegion ("bkt") ("") [[⟨"a.json.gz", 1, 1⟩, ⟨"b.json.gz", 1, 1⟩]] false).upserts :=
  high_water_mark_monotone ("bkt") ("") [[⟨"a.json.gz", 1, 1⟩, ⟨"b.json.gz", 1, 1⟩]] (by
    simp only [List.flatten_cons, List.flatten_nil, List.append_nil, List.map_cons, List.map_nil]
    refine List.pairwise_cons.mpr ⟨?_, List.pairwise_singleton _ _⟩
    intro b hb
    simp only [List.mem_singleton] at hb
    subst hb
    rw [String.lt_iff_toList_lt]
    decide)

/-- C4: when pagination completes without error, (i) if no object was
enqueued for the triple, the lister performs no state-store write at all,
so the state database is unchanged; (ii) if at least one object was
enqueued, the upsert sequence is non-empty, ends with the lister's final
checkpoint `lastSeenKey`, and that key is exactly the last enqueued job
key. -/
theorem final_checkpoint_and_empty_frame (bucket lastKey : String)
    (pages : List (List S3Object))
    (db : List ((String × String × String) × StateRow)) (accountID region : String) :
    ((processAccountRegion bucket lastKey pages false).jobs = [] →
      (processAccountRegion bucket lastKey pages false).upserts = [] ∧
      applyUpserts db bucket accountID region (processAccountRegion bucket lastKey pages false).upserts = db) ∧
    ((processAccountRegion bucket lastKey pages false).jobs ≠ [] →
      (processAccountRegion bucket lastKey pages false).upserts.getLast?
        = some (processAccountRegion bucket lastKey pages false).lastSeenKey ∧
      ((processAccountRegion bucket lastKey pages false).jobs.map (fun j => j.key)).getLast?
        = some (processAccountRegion bucket lastKey pages false).lastSeenKey) := by
  obtain ⟨hlen, hemp, hlast⟩ := listerFold_inv bucket pages.flatten ⟨0, "", [], []⟩
    rfl (fun _ => rfl) (by intro hcontra; simp at hcontra)
  simp only [processAccountRegion, listerFold_flatten, if_false, Bool.false_eq_true]
  split
  · rename_i hfl
    constructor
    · intro hj
      rw [hj] at hlen
      simp only [List.length_nil] at hlen
      omega
    · intro _
      exact ⟨by simp [List.getLast?_concat], hlast hfl⟩
  · rename_i hfl
    have hfl0 : ((pages.flatten).foldl (listerStep bucket) ⟨0, "", [], []⟩).filesListed = 0 := by
      omega
    constructor
    · intro _
      refine ⟨hemp hfl0, ?_⟩
      rw [hemp hfl0]
      rfl
    · intro hj
      have hlen0 : ((pages.flatten).foldl (listerStep bucket) ⟨0, "", [], []⟩).jobs.length = 0 := by
        omega
      exact absurd (List.length_eq_zero.mp hlen0) hj

/-- Witness for C4 at a concrete input: with no pages at all, no upsert is
performed and the state database is unchanged. -/
theorem final_checkpoint_and_empty_frame_witness :
    (processAccountRegion ("bkt") ("") [] false).upserts = [] ∧
    applyUpserts [] ("bkt") ("111111111111") ("us-east-1")
      (processAccountRegion ("bkt") ("") [] false).upserts = [] :=
  (final_checkpoint_and_empty_frame ("bkt") ("") [] [] ("111111111111") ("us-east-1")).1 (by decide)

end GoCloudTrail
